import Mathlib

/-!
Shallow embedding of the broad-phase 2D collision subsystem of the asteroids
repository (`src/collision.rs`), together with proofs of the spec's claims
about it.

Conventions of the embedding:
* `f32` coordinates are idealised as exact rationals (`ℚ`); the claims all
  quantify over NaN-free inputs.  The one place where the program can produce
  a NaN from NaN-free data — the division by the population size in the axis
  selector — is modelled explicitly with `Option ℚ` (`none` models IEEE NaN).
* glam's `Vec2` is a record of two components with componentwise arithmetic.
* `EntityId` (from the `cecs` ECS) is an opaque identifier, modelled as `ℕ`.
* the `u8` bitmasks of `CollisionTag` are modelled as `ℕ` with `Nat.land`.
-/

/-- glam `Vec2`, with exact rational components. -/
structure Vec2 where
  x : ℚ
  y : ℚ
deriving DecidableEq, Repr

/-- `v[i]` on a glam `Vec2`.  The program only ever indexes with `0` (x) and
`1` (y); glam panics on indices ≥ 2, which the program never reaches. -/
def Vec2.coord (v : Vec2) : ℕ → ℚ
  | 0 => v.x
  | _ => v.y

/-- `CollisionTag` (collision.rs:10-16): `src` is the entity's own class mask,
`dst` the mask of classes it may collide with. -/
structure CollisionTag where
  src : ℕ
  dst : ℕ
deriving DecidableEq, Repr

/-- `AABB` (collision.rs:18-22). -/
structure AABB where
  min : Vec2
  max : Vec2
deriving DecidableEq, Repr

/-- One iteration of the loop in `test_aabb_aabb` (collision.rs:36):
axis `i` separates `a` from `b`. -/
def axisSeparated (a b : AABB) (i : ℕ) : Bool :=
  decide (a.max.coord i < b.min.coord i) || decide (b.max.coord i < a.min.coord i)

/-- `test_aabb_aabb` (collision.rs:34-41): returns `false` as soon as some
axis separates the boxes, `true` otherwise. -/
def test_aabb_aabb (a b : AABB) : Bool :=
  !axisSeparated a b 0 && !axisSeparated a b 1

abbrev EntityId := ℕ

/-- One element of the `AABBBuffer` working set (collision.rs:43): the tuple
`(EntityId, AABB, CollisionTag)` collected by `collect_aabbs_system`. -/
structure Entry where
  id : EntityId
  aabb : AABB
  tag : CollisionTag
deriving DecidableEq, Repr

/-- `CollisionEvent` (collision.rs:75-81). -/
structure CollisionEvent where
  entity_1 : EntityId
  tag1 : CollisionTag
  entity_2 : EntityId
  tag2 : CollisionTag
deriving DecidableEq, Repr

/-- The event pushed at collision.rs:107-112 for the pair `(a, b)`. -/
def mkEvent (a b : Entry) : CollisionEvent :=
  ⟨a.id, a.tag, b.id, b.tag⟩

/-- The tag filter of collision.rs:105:
`(a.2.src & b.2.dst != 0) || (b.2.src & a.2.dst != 0)`. -/
def tagPermits (a b : CollisionTag) : Bool :=
  decide (Nat.land a.src b.dst ≠ 0) || decide (Nat.land b.src a.dst ≠ 0)

/-- The full reporting predicate of collision.rs:105: tag filter, then the
2D overlap test. -/
def reported (a b : Entry) : Bool :=
  tagPermits a.tag b.tag && test_aabb_aabb a.aabb b.aabb

/-- The sort key of collision.rs:91: `e.1.min[sort_axis]`. -/
def minCoord (ax : ℕ) (e : Entry) : ℚ :=
  e.aabb.min.coord ax

/-- The sort order induced by the comparator of collision.rs:90-94 on NaN-free
keys (`partial_cmp` is total there). -/
def entLe (ax : ℕ) (a b : Entry) : Prop :=
  minCoord ax a ≤ minCoord ax b

instance instDecEntLe (ax : ℕ) : DecidableRel (entLe ax) :=
  fun a b => inferInstanceAs (Decidable (minCoord ax a ≤ minCoord ax b))

instance instTotalEntLe (ax : ℕ) : IsTotal Entry (entLe ax) :=
  ⟨fun a b => le_total (minCoord ax a) (minCoord ax b)⟩

instance instTransEntLe (ax : ℕ) : IsTrans Entry (entLe ax) :=
  ⟨fun _ _ _ h1 h2 => le_trans h1 h2⟩

/-- The sort step of collision.rs:90-94.  `sort_unstable_by` guarantees a
permutation of the input that is sorted w.r.t. the (total, on NaN-free keys)
comparator; `insertionSort` realises exactly that contract. -/
def sortEntries (ax : ℕ) (l : List Entry) : List Entry :=
  List.insertionSort (entLe ax) l

/-- The inner loop of `sort_sweep_system` (collision.rs:100-114) for the entry
`a`, scanning the entries after it in sorted order, with the early break of
collision.rs:101-103. -/
def innerScan (ax : ℕ) (a : Entry) : List Entry → List CollisionEvent
  | [] => []
  | b :: rest =>
    if minCoord ax b > a.aabb.max.coord ax then []
    else (if reported a b then [mkEvent a b] else []) ++ innerScan ax a rest

/-- The outer loop of `sort_sweep_system` (collision.rs:99-118), emitting the
events of the tick in order. -/
def sweep (ax : ℕ) : List Entry → List CollisionEvent
  | [] => []
  | a :: rest => innerScan ax a rest ++ sweep ax rest

/-- The same inner scan run to the end of the array, without the early break:
`a` is tested against every later entry. -/
def innerScanNoBreak (a : Entry) (rest : List Entry) : List CollisionEvent :=
  (rest.filter fun b => reported a b).map (mkEvent a)

/-- The naive all-pairs reference: the same tag filter and the same 2D overlap
test applied to every unordered pair of the list (equivalently, the sweep run
without the early break). -/
def allPairsEvents : List Entry → List CollisionEvent
  | [] => []
  | a :: rest => innerScanNoBreak a rest ++ allPairsEvents rest

/-- The events produced by one run of `sort_sweep_system` on working set `l`
with current sweep axis `ax`: sort, then sweep with early break. -/
def tickEvents (ax : ℕ) (l : List Entry) : List CollisionEvent :=
  sweep ax (sortEntries ax l)

/-- The box center `p = (max + min) / 2.0` of collision.rs:115, also the
center used by the bounding-volume-projection spec. -/
def AABB.center (a : AABB) : Vec2 :=
  ⟨(a.max.x + a.min.x) / 2, (a.max.y + a.min.y) / 2⟩

/-- Half-extents of an AABB (spec-side notion for claim C2). -/
def AABB.halfExtents (a : AABB) : Vec2 :=
  ⟨(a.max.x - a.min.x) / 2, (a.max.y - a.min.y) / 2⟩

/-- Accumulated `sum.x` of collision.rs:116 over the whole working set. -/
def sumCx (l : List Entry) : ℚ :=
  (l.map fun e => e.aabb.center.x).sum

/-- Accumulated `sum.y` of collision.rs:116. -/
def sumCy (l : List Entry) : ℚ :=
  (l.map fun e => e.aabb.center.y).sum

/-- Accumulated `sum2.x` of collision.rs:117 (componentwise `p * p`). -/
def sumC2x (l : List Entry) : ℚ :=
  (l.map fun e => e.aabb.center.x * e.aabb.center.x).sum

/-- Accumulated `sum2.y` of collision.rs:117. -/
def sumC2y (l : List Entry) : ℚ :=
  (l.map fun e => e.aabb.center.y * e.aabb.center.y).sum

/-- The spec's per-axis population variance of the box centers along x:
`sum_of_squares - (sum^2 / n)`. -/
def varX (l : List Entry) : ℚ :=
  sumC2x l - (sumCx l * sumCx l) / (l.length : ℚ)

/-- The spec's per-axis population variance of the box centers along y. -/
def varY (l : List Entry) : ℚ :=
  sumC2y l - (sumCy l * sumCy l) / (l.length : ℚ)

/-- `f32` division as used at collision.rs:120.  In the program the denominator
is zero exactly for the empty working set, where the numerator (a sum over no
entries) is also zero, so the IEEE result is `0.0 / 0.0 = NaN`, modelled by
`none`; a nonzero denominator gives the exact quotient. -/
def divF (a n : ℚ) : Option ℚ :=
  if n = 0 then none else some (a / n)

/-- `f32` subtraction with a possibly-NaN right operand: anything minus NaN is
NaN. -/
def subF (a : ℚ) : Option ℚ → Option ℚ
  | none => none
  | some b => some (a - b)

/-- IEEE `>` on possibly-NaN values: every comparison involving NaN is false. -/
def gtF : Option ℚ → Option ℚ → Bool
  | some a, some b => decide (b < a)
  | _, _ => false

/-- The adaptive axis selector (collision.rs:120-125):
`variance = sum2 - ((sum * sum) / len)`, then axis 1 iff
`variance.y > variance.x`, else axis 0. -/
def nextAxis (l : List Entry) : ℕ :=
  let n : ℚ := (l.length : ℚ)
  let vx := subF (sumC2x l) (divF (sumCx l * sumCx l) n)
  let vy := subF (sumC2y l) (divF (sumCy l * sumCy l) n)
  if gtF vy vx then 1 else 0

/-- The sweep-axis resource after one run of `sort_sweep_system` on working
set `l` (the sums of collision.rs:115-117 are accumulated over the sorted
buffer). -/
def tickAxis (ax : ℕ) (l : List Entry) : ℕ :=
  nextAxis (sortEntries ax l)

/-- The world transform consumed by `update_aabbs_system`: translation
`tr.0.pos.truncate()` and 2D scale `tr.0.scale.truncate()`. -/
structure Transform2 where
  pos : Vec2
  scale : Vec2
deriving DecidableEq, Repr

/-- The body of `update_aabbs_system` (collision.rs:47-58): projects the local
`AABB` through the world transform into the entity's `GlobalAABB`. -/
def updateGlobalAABB (tr : Transform2) (aabb : AABB) : AABB :=
  let p : Vec2 := ⟨(aabb.max.x + aabb.min.x) * (1/2), (aabb.max.y + aabb.min.y) * (1/2)⟩
  let size : Vec2 := ⟨tr.scale.x * (aabb.max.x - aabb.min.x) * (1/2),
                      tr.scale.y * (aabb.max.y - aabb.min.y) * (1/2)⟩
  ⟨⟨p.x - size.x + tr.pos.x, p.y - size.y + tr.pos.y⟩,
   ⟨p.x + size.x + tr.pos.x, p.y + size.y + tr.pos.y⟩⟩

/-- Projection of an event to the unordered pair of (identifier, tag) data of
its two participants. -/
def eventPair (e : CollisionEvent) : Sym2 (EntityId × CollisionTag) :=
  s((e.entity_1, e.tag1), (e.entity_2, e.tag2))

/-- The (id, tag) data of an entry, i.e. what `mkEvent` records about it. -/
def entryKey (e : Entry) : EntityId × CollisionTag :=
  (e.id, e.tag)

/-- The multiset of unordered pairs of entries reported by the all-pairs
reference test on a list. -/
def pairsSym : List Entry → Multiset (Sym2 Entry)
  | [] => 0
  | a :: rest =>
    (((rest.filter fun b => reported a b).map fun b => s(a, b) : List (Sym2 Entry)) : Multiset (Sym2 Entry))
      + pairsSym rest

/-- The comparator of collision.rs:90-94 on possibly-NaN keys (`none` models
NaN): `partial_cmp(..).unwrap_or(Ordering.Equal)` maps incomparable pairs to
`Equal`. -/
def cmpF : Option ℚ → Option ℚ → Ordering
  | some a, some b => compare a b
  | _, _ => Ordering.eq

/-- "`a` sorts no later than `b`" for the possibly-NaN comparator. -/
def leF (a b : Option ℚ) : Prop :=
  cmpF a b ≠ Ordering.gt

instance instDecLeF : DecidableRel leF :=
  fun a b => inferInstanceAs (Decidable (cmpF a b ≠ Ordering.gt))

/-- Sorting a list of possibly-NaN keys with the `unwrap_or(Equal)`
comparator. -/
def sortKeysF (l : List (Option ℚ)) : List (Option ℚ) :=
  List.insertionSort leF l

/-- Well-formedness of an AABB: `min ≤ max` on both axes. -/
def wellFormedBox (a : AABB) : Prop :=
  a.min.x ≤ a.max.x ∧ a.min.y ≤ a.max.y

instance instDecWellFormedBox (a : AABB) : Decidable (wellFormedBox a) :=
  inferInstanceAs (Decidable (_ ∧ _))

/- ------------------------------------------------------------------ -/
/- Helper lemmas                                                       -/
/- ------------------------------------------------------------------ -/

theorem axisSeparated_symm (a b : AABB) (i : ℕ) :
    axisSeparated a b i = axisSeparated b a i :=
  Bool.or_comm _ _

theorem test_aabb_aabb_symm (a b : AABB) :
    test_aabb_aabb a b = test_aabb_aabb b a := by
  unfold test_aabb_aabb
  rw [axisSeparated_symm a b 0, axisSeparated_symm a b 1]

theorem tagPermits_symm (a b : CollisionTag) :
    tagPermits a b = tagPermits b a :=
  Bool.or_comm _ _

theorem reported_symm (a b : Entry) :
    reported a b = reported b a := by
  unfold reported
  rw [tagPermits_symm, test_aabb_aabb_symm]

/-- A box whose minimum on the sweep axis lies strictly beyond `a`'s maximum
on that axis is never reported: the boxes are separated on that axis, so
`test_aabb_aabb` fails. -/
theorem reported_false_of_far (ax : ℕ) (hax : ax = 0 ∨ ax = 1) (a b : Entry)
    (h : minCoord ax b > a.aabb.max.coord ax) :
    reported a b = false := by
  cases hax with
  | inl h0 =>
    subst h0
    have h' : a.aabb.max.x < b.aabb.min.x := h
    simp [reported, test_aabb_aabb, axisSeparated, Vec2.coord, h']
  | inr h1 =>
    subst h1
    have h' : a.aabb.max.y < b.aabb.min.y := h
    simp [reported, test_aabb_aabb, axisSeparated, Vec2.coord, h']

/-- Every event of the inner scan comes from a later entry that passes the
reporting predicate. -/
theorem mem_innerScan {ax : ℕ} {a : Entry} {rest : List Entry} {e : CollisionEvent}
    (he : e ∈ innerScan ax a rest) :
    ∃ b ∈ rest, reported a b = true ∧ e = mkEvent a b := by
  induction rest with
  | nil => simp [innerScan] at he
  | cons b rest ih =>
    simp only [innerScan] at he
    split_ifs at he with h1 h2
    · simp at he
    · rcases List.mem_append.mp he with h | h
      · exact ⟨b, List.mem_cons_self b rest, h2, List.mem_singleton.mp h⟩
      · obtain ⟨c, hc, hr, hec⟩ := ih h
        exact ⟨c, List.mem_cons_of_mem b hc, hr, hec⟩
    · simp only [List.nil_append] at he
      obtain ⟨c, hc, hr, hec⟩ := ih he
      exact ⟨c, List.mem_cons_of_mem b hc, hr, hec⟩

/-- On a sorted tail, the early break changes nothing: the inner scan with the
break of collision.rs:101-103 equals the scan run to the end of the array. -/
theorem innerScan_eq_noBreak (ax : ℕ) (hax : ax = 0 ∨ ax = 1) (a : Entry) :
    ∀ rest : List Entry, List.Sorted (entLe ax) rest →
      innerScan ax a rest = innerScanNoBreak a rest := by
  intro rest
  induction rest with
  | nil => intro _; rfl
  | cons b rest ih =>
    intro hs
    rw [List.sorted_cons] at hs
    obtain ⟨hb, hrest⟩ := hs
    by_cases h1 : minCoord ax b > a.aabb.max.coord ax
    · have hall : ∀ c ∈ b :: rest, ¬(reported a c = true) := by
        intro c hc
        rcases List.mem_cons.mp hc with rfl | hc
        · simp [reported_false_of_far ax hax a c h1]
        · have : minCoord ax c > a.aabb.max.coord ax :=
            lt_of_lt_of_le h1 (hb c hc)
          simp [reported_false_of_far ax hax a c this]
      simp only [innerScan, if_pos h1]
      rw [innerScanNoBreak, List.filter_eq_nil_iff.mpr hall, List.map_nil]
    · simp only [innerScan, if_neg h1]
      rw [ih hrest, innerScanNoBreak, innerScanNoBreak, List.filter_cons]
      by_cases hr : reported a b = true
      · simp [hr]
      · simp [hr]

/-- On a sorted working set the whole sweep with the early break equals the
all-pairs scan. -/
theorem sweep_eq_allPairs_of_sorted (ax : ℕ) (hax : ax = 0 ∨ ax = 1) :
    ∀ l : List Entry, List.Sorted (entLe ax) l →
      sweep ax l = allPairsEvents l := by
  intro l
  induction l with
  | nil => intro _; rfl
  | cons a rest ih =>
    intro hs
    rw [List.sorted_cons] at hs
    rw [sweep, allPairsEvents, innerScan_eq_noBreak ax hax a rest hs.2, ih hs.2]

/- ------------------------------------------------------------------ -/
/- Claim theorems (first batch)                                        -/
/- ------------------------------------------------------------------ -/

/-- Claim C6: for NaN-free coordinates, `test_aabb_aabb a b` returns `true`
iff `a.max.x ≥ b.min.x`, `b.max.x ≥ a.min.x`, `a.max.y ≥ b.min.y` and
`b.max.y ≥ a.min.y`; failing any one conjunct means disjoint, and touching
boxes count as overlapping. -/
theorem test_aabb_aabb_iff (a b : AABB) :
    test_aabb_aabb a b = true ↔
      a.max.x ≥ b.min.x ∧ b.max.x ≥ a.min.x ∧ a.max.y ≥ b.min.y ∧ b.max.y ≥ a.min.y := by
  simp [test_aabb_aabb, axisSeparated, Vec2.coord, not_or, not_lt, ge_iff_le, and_assoc]

/-- Claim C8: the pair-permission predicate is symmetric, and therefore so is
the full per-pair reporting predicate (tag filter together with the overlap
test). -/
theorem tag_filter_symmetric :
    (∀ ta tb : CollisionTag, tagPermits ta tb = tagPermits tb ta) ∧
    (∀ a b : Entry, reported a b = reported b a) :=
  ⟨tagPermits_symm, reported_symm⟩

/-- Claim C4 counterexample: the box `a = [(1,0),(0,1)]` has inverted x-bounds
(`min.x > max.x`), yet `test_aabb_aabb` reports it as overlapping the wide box
`b = [(-5,0),(5,1)]` — a malformed box is not rejected by every test. -/
theorem inverted_box_overlap_cx :
    (AABB.mk ⟨1, 0⟩ ⟨0, 1⟩).min.x > (AABB.mk ⟨1, 0⟩ ⟨0, 1⟩).max.x ∧
    test_aabb_aabb (AABB.mk ⟨1, 0⟩ ⟨0, 1⟩) (AABB.mk ⟨-5, 0⟩ ⟨5, 1⟩) = true := by
  constructor
  · decide
  · decide

/-- Claim C4 (amended): a box whose bounds are inverted on some axis never
overlaps itself (though it can overlap a box spanning its inverted
interval). -/
theorem inverted_box_no_self_overlap (a : AABB)
    (h : a.max.x < a.min.x ∨ a.max.y < a.min.y) :
    test_aabb_aabb a a = false := by
  cases h with
  | inl h => simp [test_aabb_aabb, axisSeparated, Vec2.coord, h]
  | inr h => simp [test_aabb_aabb, axisSeparated, Vec2.coord, h]

/-- Witness for the amended claim C4, at the inverted box `[(1,0),(0,1)]`. -/
theorem inverted_box_no_self_overlap_witness :
    test_aabb_aabb (AABB.mk ⟨1, 0⟩ ⟨0, 1⟩) (AABB.mk ⟨1, 0⟩ ⟨0, 1⟩) = false :=
  inverted_box_no_self_overlap (AABB.mk ⟨1, 0⟩ ⟨0, 1⟩) (Or.inl (by decide))

/-- Claim C2 counterexample: with local box `[(0,0),(2,2)]` (center `(1,1)`),
scale `(2,2)` and translation `(0,0)`, the projected world AABB's center is
`(1,1)`, not `(local center) * scale + translation = (2,2)`: the code does not
scale the local center. -/
theorem projection_center_cx :
    (updateGlobalAABB ⟨⟨0, 0⟩, ⟨2, 2⟩⟩ ⟨⟨0, 0⟩, ⟨2, 2⟩⟩).center ≠
      ⟨(AABB.mk ⟨0, 0⟩ ⟨2, 2⟩).center.x * 2 + 0,
       (AABB.mk ⟨0, 0⟩ ⟨2, 2⟩).center.y * 2 + 0⟩ := by
  simp only [updateGlobalAABB, AABB.center, ne_eq, Vec2.mk.injEq, not_and]
  norm_num

/-- Claim C2 (amended): the projection step produces a world AABB whose center
equals (local center) + translation — the scale is applied to the extents but
not to the center — and whose half-extents equal (local half-extents) *
scale. -/
theorem projection_center_halfExtents (tr : Transform2) (box : AABB) :
    (updateGlobalAABB tr box).center =
      ⟨box.center.x + tr.pos.x, box.center.y + tr.pos.y⟩ ∧
    (updateGlobalAABB tr box).halfExtents =
      ⟨tr.scale.x * box.halfExtents.x, tr.scale.y * box.halfExtents.y⟩ := by
  constructor <;>
  · simp only [updateGlobalAABB, AABB.center, AABB.halfExtents, Vec2.mk.injEq]
    constructor <;> ring

/- ------------------------------------------------------------------ -/
/- Permutation invariance of the reported pair multiset                -/
/- ------------------------------------------------------------------ -/

/-- The multiset of unordered pairs reported by the all-pairs reference is
invariant under permutation of the working set, because the reporting
predicate is symmetric. -/
theorem pairsSym_perm {l l' : List Entry} (p : l.Perm l') :
    pairsSym l = pairsSym l' := by
  induction p with
  | nil => rfl
  | cons x p ih =>
    simp only [pairsSym, ih]
    congr 1
    exact Multiset.coe_eq_coe.mpr ((p.filter _).map _)
  | swap x y l =>
    have hsymm : reported y x = reported x y := reported_symm y x
    simp only [pairsSym, List.filter_cons, hsymm]
    by_cases hxy : reported x y = true
    · have hsw : s(y, x) = s(x, y) := Sym2.eq_swap
      simp only [hxy, if_true, List.map_cons, ← Multiset.cons_coe, hsw,
        Multiset.cons_add]
      rw [add_left_comm]
    · rw [if_neg hxy, if_neg hxy, add_left_comm]
  | trans _ _ ih1 ih2 => exact ih1.trans ih2

/-- The events of the all-pairs reference, viewed as unordered (id, tag)
pairs, are the projection of the entry-pair multiset `pairsSym`. -/
theorem allPairs_eventPair (l : List Entry) :
    (((allPairsEvents l).map eventPair : List (Sym2 (EntityId × CollisionTag))) :
        Multiset (Sym2 (EntityId × CollisionTag))) =
      (pairsSym l).map (Sym2.map entryKey) := by
  induction l with
  | nil => rfl
  | cons a rest ih =>
    simp only [allPairsEvents, innerScanNoBreak, pairsSym, List.map_append,
      ← Multiset.coe_add, Multiset.map_add, Multiset.map_coe, List.map_map, ih]
    congr 1

/- ------------------------------------------------------------------ -/
/- Claim theorems: C5 and C1                                           -/
/- ------------------------------------------------------------------ -/

/-- Claim C5: for a working set sorted ascending by `min[axis]` (NaN-free
coordinates), the sweep scan with the early-break condition produces exactly
the same event list as the same scan run to the end of the array without the
break. -/
theorem sweep_break_irrelevant (ax : ℕ) (l : List Entry)
    (hax : ax = 0 ∨ ax = 1) (hs : List.Sorted (entLe ax) l) :
    sweep ax l = allPairsEvents l :=
  sweep_eq_allPairs_of_sorted ax hax l hs

/-- Witness for claim C5 at a concrete sorted two-element working set. -/
theorem sweep_break_irrelevant_witness :
    sweep 0 [⟨0, ⟨⟨-1, -1⟩, ⟨1, 1⟩⟩, ⟨1, 2⟩⟩, ⟨1, ⟨⟨0, 0⟩, ⟨2, 2⟩⟩, ⟨2, 1⟩⟩] =
      allPairsEvents [⟨0, ⟨⟨-1, -1⟩, ⟨1, 1⟩⟩, ⟨1, 2⟩⟩, ⟨1, ⟨⟨0, 0⟩, ⟨2, 2⟩⟩, ⟨2, 1⟩⟩] :=
  sweep_break_irrelevant 0
    [⟨0, ⟨⟨-1, -1⟩, ⟨1, 1⟩⟩, ⟨1, 2⟩⟩, ⟨1, ⟨⟨0, 0⟩, ⟨2, 2⟩⟩, ⟨2, 1⟩⟩]
    (Or.inl rfl) (by decide)

/-- Claim C1: for every working set with well-formed, NaN-free coordinates,
the multiset of unordered (id, tag) pairs reported by the sort-and-sweep pass
(sort by `min[axis]`, forward scan with early break, tag filter, full 2D
overlap test) equals the multiset reported by the naive all-pairs reference
test on the same input. -/
theorem sweep_matches_naive (ax : ℕ) (l : List Entry)
    (hax : ax = 0 ∨ ax = 1)
    (_hwf : ∀ e ∈ l, wellFormedBox e.aabb) :
    (((tickEvents ax l).map eventPair : List (Sym2 (EntityId × CollisionTag))) :
        Multiset (Sym2 (EntityId × CollisionTag))) =
      (((allPairsEvents l).map eventPair : List (Sym2 (EntityId × CollisionTag))) :
        Multiset (Sym2 (EntityId × CollisionTag))) := by
  have hsort : List.Sorted (entLe ax) (sortEntries ax l) :=
    List.sorted_insertionSort (entLe ax) l
  have hperm : (sortEntries ax l).Perm l := List.perm_insertionSort (entLe ax) l
  rw [tickEvents, sweep_eq_allPairs_of_sorted ax hax _ hsort,
    allPairs_eventPair, allPairs_eventPair, pairsSym_perm hperm]

/-- Witness for claim C1 at a concrete (unsorted) two-element working set. -/
theorem sweep_matches_naive_witness :
    (((tickEvents 0 [⟨1, ⟨⟨0, 0⟩, ⟨2, 2⟩⟩, ⟨2, 1⟩⟩, ⟨0, ⟨⟨-1, -1⟩, ⟨1, 1⟩⟩, ⟨1, 2⟩⟩]).map
        eventPair : List (Sym2 (EntityId × CollisionTag))) :
      Multiset (Sym2 (EntityId × CollisionTag))) =
      (((allPairsEvents [⟨1, ⟨⟨0, 0⟩, ⟨2, 2⟩⟩, ⟨2, 1⟩⟩, ⟨0, ⟨⟨-1, -1⟩, ⟨1, 1⟩⟩, ⟨1, 2⟩⟩]).map
          eventPair : List (Sym2 (EntityId × CollisionTag))) :
        Multiset (Sym2 (EntityId × CollisionTag))) :=
  sweep_matches_naive 0
    [⟨1, ⟨⟨0, 0⟩, ⟨2, 2⟩⟩, ⟨2, 1⟩⟩, ⟨0, ⟨⟨-1, -1⟩, ⟨1, 1⟩⟩, ⟨1, 2⟩⟩]
    (Or.inl rfl) (by decide)

/- ------------------------------------------------------------------ -/
/- Claim theorems: C3, C7, C9                                          -/
/- ------------------------------------------------------------------ -/

/-- For a nonempty working set the axis selector reduces to the exact rational
variance comparison: no NaN arises, and the sums over the sorted buffer equal
the sums over the original working set. -/
theorem tickAxis_eq_var (ax : ℕ) (l : List Entry) (hne : l ≠ []) :
    tickAxis ax l = if varY l > varX l then 1 else 0 := by
  have hperm : (sortEntries ax l).Perm l := List.perm_insertionSort (entLe ax) l
  have hlen : (sortEntries ax l).length = l.length := hperm.length_eq
  have hsx : sumCx (sortEntries ax l) = sumCx l := (hperm.map _).sum_eq
  have hsy : sumCy (sortEntries ax l) = sumCy l := (hperm.map _).sum_eq
  have hs2x : sumC2x (sortEntries ax l) = sumC2x l := (hperm.map _).sum_eq
  have hs2y : sumC2y (sortEntries ax l) = sumC2y l := (hperm.map _).sum_eq
  have hn : ((l.length : ℚ)) ≠ 0 :=
    Nat.cast_ne_zero.mpr (fun h => hne (List.length_eq_zero.mp h))
  simp only [tickAxis, nextAxis, hsx, hsy, hs2x, hs2y, hlen, divF, subF, gtF,
    hn, if_false, gt_iff_lt, varX, varY, decide_eq_true_eq]

/-- Claim C7: for every non-empty working set the selector sets the next
tick's axis to 1 (Y) exactly when the Y variance exceeds the X variance and to
0 (X) otherwise, with variance `sum_of_squares − (sum² / n)` over the box
centers; a population with center variance 100 along X and 1 along Y yields
axis X, and the inverse yields axis Y. -/
theorem axis_selector_spec :
    (∀ (ax : ℕ) (l : List Entry), l ≠ [] →
        tickAxis ax l = if varY l > varX l then 1 else 0) ∧
    tickAxis 0 [⟨0, ⟨⟨5, 1/2⟩, ⟨5, 1/2⟩⟩, ⟨0, 0⟩⟩,
                ⟨1, ⟨⟨5, -1/2⟩, ⟨5, -1/2⟩⟩, ⟨0, 0⟩⟩,
                ⟨2, ⟨⟨-5, 1/2⟩, ⟨-5, 1/2⟩⟩, ⟨0, 0⟩⟩,
                ⟨3, ⟨⟨-5, -1/2⟩, ⟨-5, -1/2⟩⟩, ⟨0, 0⟩⟩] = 0 ∧
    tickAxis 0 [⟨0, ⟨⟨1/2, 5⟩, ⟨1/2, 5⟩⟩, ⟨0, 0⟩⟩,
                ⟨1, ⟨⟨-1/2, 5⟩, ⟨-1/2, 5⟩⟩, ⟨0, 0⟩⟩,
                ⟨2, ⟨⟨1/2, -5⟩, ⟨1/2, -5⟩⟩, ⟨0, 0⟩⟩,
                ⟨3, ⟨⟨-1/2, -5⟩, ⟨-1/2, -5⟩⟩, ⟨0, 0⟩⟩] = 1 := by
  refine ⟨tickAxis_eq_var, ?_, ?_⟩ <;>
  · rw [tickAxis_eq_var 0 _ (List.cons_ne_nil _ _)]
    norm_num [varX, varY, sumCx, sumCy, sumC2x, sumC2y, AABB.center]

/-- Witness for claim C7 at a concrete one-element working set. -/
theorem axis_selector_spec_witness :
    tickAxis 0 [⟨0, ⟨⟨0, 0⟩, ⟨0, 0⟩⟩, ⟨0, 0⟩⟩] =
      if varY [⟨0, ⟨⟨0, 0⟩, ⟨0, 0⟩⟩, ⟨0, 0⟩⟩] > varX [⟨0, ⟨⟨0, 0⟩, ⟨0, 0⟩⟩, ⟨0, 0⟩⟩]
      then 1 else 0 :=
  axis_selector_spec.1 0 [⟨0, ⟨⟨0, 0⟩, ⟨0, 0⟩⟩, ⟨0, 0⟩⟩] (List.cons_ne_nil _ _)

/-- Claim C3 counterexample: a tick on the empty working set with prior sweep
axis 1 produces zero events but sets the axis state to 0 — the prior value 1
is not preserved (the code divides `0.0` by the population size `0`, getting
NaN, and the NaN comparison selects the `else` branch). -/
theorem empty_tick_axis_cx :
    tickEvents 1 ([] : List Entry) = [] ∧
    tickAxis 1 ([] : List Entry) = 0 ∧ tickAxis 1 ([] : List Entry) ≠ 1 := by
  refine ⟨rfl, rfl, ?_⟩
  intro h
  exact absurd h (by decide)

/-- Claim C3 (amended): a tick on the empty working set produces zero events;
the variance computation is not skipped — the code divides by the population
size zero (IEEE `0.0 / 0.0 = NaN`) and, the NaN comparison
`variance.y > variance.x` being false, sets the sweep axis to 0 (X) regardless
of its prior value. -/
theorem empty_tick (ax : ℕ) :
    tickEvents ax ([] : List Entry) = [] ∧ tickAxis ax ([] : List Entry) = 0 :=
  ⟨rfl, rfl⟩

/-- Claim C9: after the sort step the working set satisfies
`entry[i].min[axis] ≤ entry[j].min[axis]` for all positions `i < j` (ties
allowed); and the comparator that maps incomparable (NaN) keys to `Equal`
still yields a well-defined, terminating sort that loses no entries (its
output is a permutation of its input). -/
theorem sort_invariant :
    (∀ (ax : ℕ) (l : List Entry) (i j : Fin (sortEntries ax l).length),
        (i : ℕ) < (j : ℕ) →
        minCoord ax ((sortEntries ax l).get i) ≤ minCoord ax ((sortEntries ax l).get j)) ∧
    (∀ ks : List (Option ℚ), (sortKeysF ks).Perm ks) := by
  constructor
  · intro ax l i j hij
    exact List.pairwise_iff_get.mp (List.sorted_insertionSort (entLe ax) l) i j hij
  · intro ks
    exact List.perm_insertionSort leF ks

/-- Witness for claim C9 at a concrete two-element working set whose entries
arrive in reverse order. -/
theorem sort_invariant_witness :
    minCoord 0 ((sortEntries 0 [⟨0, ⟨⟨3, 0⟩, ⟨4, 0⟩⟩, ⟨0, 0⟩⟩,
        ⟨1, ⟨⟨1, 0⟩, ⟨2, 0⟩⟩, ⟨0, 0⟩⟩]).get ⟨0, by decide⟩) ≤
      minCoord 0 ((sortEntries 0 [⟨0, ⟨⟨3, 0⟩, ⟨4, 0⟩⟩, ⟨0, 0⟩⟩,
        ⟨1, ⟨⟨1, 0⟩, ⟨2, 0⟩⟩, ⟨0, 0⟩⟩]).get ⟨1, by decide⟩) :=
  sort_invariant.1 0 [⟨0, ⟨⟨3, 0⟩, ⟨4, 0⟩⟩, ⟨0, 0⟩⟩, ⟨1, ⟨⟨1, 0⟩, ⟨2, 0⟩⟩, ⟨0, 0⟩⟩]
    ⟨0, by decide⟩ ⟨1, by decide⟩ (by decide)

/- ------------------------------------------------------------------ -/
/- Claim C10: distinctness and uniqueness of reported pairs            -/
/- ------------------------------------------------------------------ -/

/-- Normal form of the inner scan: the events for `a` are exactly the passing
entries of the prefix of later entries not cut off by the early break. -/
theorem innerScan_eq (ax : ℕ) (a : Entry) (rest : List Entry) :
    innerScan ax a rest =
      ((rest.takeWhile fun b => !decide (minCoord ax b > a.aabb.max.coord ax)).filter
          fun b => reported a b).map (mkEvent a) := by
  induction rest with
  | nil => rfl
  | cons b rest ih =>
    by_cases h : minCoord ax b > a.aabb.max.coord ax
    · rw [innerScan, if_pos h, List.takeWhile_cons_of_neg (by simp [h])]
      rfl
    · rw [innerScan, if_neg h, ih, List.takeWhile_cons_of_pos (by simp [h]),
        List.filter_cons]
      by_cases hr : reported a b = true <;> simp [hr]

/-- Every event of the sweep is `mkEvent a b` for entries `a` before `b` in
the swept list, and the pair passed the reporting predicate. -/
theorem mem_sweep {ax : ℕ} {s : List Entry} {e : CollisionEvent}
    (he : e ∈ sweep ax s) :
    ∃ a b : Entry, e = mkEvent a b ∧ reported a b = true ∧ [a, b].Sublist s := by
  induction s with
  | nil => simp [sweep] at he
  | cons a rest ih =>
    rw [sweep] at he
    rcases List.mem_append.mp he with h | h
    · obtain ⟨b, hb, hr, hmk⟩ := mem_innerScan h
      exact ⟨a, b, hmk, hr, List.Sublist.cons₂ a (List.singleton_sublist.mpr hb)⟩
    · obtain ⟨c, d, hmk, hr, hsub⟩ := ih h
      exact ⟨c, d, hmk, hr, hsub.cons a⟩

/-- Mapping distinct-id entries through `mkEvent a` and then to unordered
(id, tag) pairs keeps them pairwise distinct. -/
theorem map_eventPair_nodup (a : Entry) (sub : List Entry)
    (hsub : (sub.map Entry.id).Nodup) :
    ((sub.map (mkEvent a)).map eventPair).Nodup := by
  rw [List.map_map]
  refine List.Nodup.map_on ?_ (List.Nodup.of_map Entry.id hsub)
  intro b1 hb1 b2 hb2 heq
  have heq' : s((a.id, a.tag), (b1.id, b1.tag)) = s((a.id, a.tag), (b2.id, b2.tag)) := heq
  have hid : b1.id = b2.id := by
    rcases Sym2.eq_iff.mp heq' with ⟨-, h2⟩ | ⟨h1, h2⟩
    · exact congrArg Prod.fst h2
    · exact (congrArg Prod.fst h2).trans (congrArg Prod.fst h1)
  exact List.inj_on_of_nodup_map hsub hb1 hb2 hid

/-- With pairwise distinct entity identifiers, the unordered (id, tag) pairs
of the sweep's event log are pairwise distinct. -/
theorem sweep_eventPair_nodup (ax : ℕ) :
    ∀ s : List Entry, (s.map Entry.id).Nodup →
      ((sweep ax s).map eventPair).Nodup := by
  intro s
  induction s with
  | nil => intro _; simp [sweep]
  | cons a rest ih =>
    intro hids
    rw [List.map_cons, List.nodup_cons] at hids
    obtain ⟨hna, hrest⟩ := hids
    rw [sweep, List.map_append, innerScan_eq]
    have hsubl : ((rest.takeWhile fun b => !decide (minCoord ax b > a.aabb.max.coord ax)).filter
        fun b => reported a b).Sublist rest :=
      (List.filter_sublist _).trans (List.takeWhile_sublist _)
    have hsubids := hrest.sublist (hsubl.map Entry.id)
    refine List.Nodup.append (map_eventPair_nodup a _ hsubids) (ih hrest) ?_
    intro z hz1 hz2
    obtain ⟨e1, he1, hze⟩ := List.mem_map.mp hz1
    obtain ⟨b, hb, hmk⟩ := List.mem_map.mp he1
    obtain ⟨e2, he2, hz2e⟩ := List.mem_map.mp hz2
    obtain ⟨c, d, hmk2, -, hsubcd⟩ := mem_sweep he2
    have hcd : c ∈ rest ∧ d ∈ rest := by
      have hss := hsubcd.subset
      exact ⟨hss (by simp), hss (by simp)⟩
    subst hmk2
    rw [← hmk] at hze
    have heq : s((c.id, c.tag), (d.id, d.tag)) = s((a.id, a.tag), (b.id, b.tag)) :=
      hz2e.trans hze.symm
    rcases Sym2.eq_iff.mp heq with ⟨h1, -⟩ | ⟨-, h2⟩
    · have hca : c.id = a.id := congrArg Prod.fst h1
      exact hna (hca ▸ List.mem_map_of_mem Entry.id hcd.1)
    · have hda : d.id = a.id := congrArg Prod.fst h2
      exact hna (hda ▸ List.mem_map_of_mem Entry.id hcd.2)

/-- Claim C10: when the snapshot entries carry pairwise distinct entity
identifiers, every event of a tick pairs two distinct entities (never an
entity with itself), the unordered (id, tag) pairs in the event log are
pairwise distinct (each unordered pair is reported at most once per tick),
and every event is `mkEvent a b` for entries `a` before `b` in the sorted
working set — `entity_1` is the entry earlier in sort order. -/
theorem events_distinct_unique (ax : ℕ) (l : List Entry)
    (hids : (l.map Entry.id).Nodup) :
    (∀ e ∈ tickEvents ax l, e.entity_1 ≠ e.entity_2) ∧
    ((tickEvents ax l).map eventPair).Nodup ∧
    (∀ e ∈ tickEvents ax l, ∃ a b : Entry,
        e = mkEvent a b ∧ [a, b].Sublist (sortEntries ax l)) := by
  have hperm : (sortEntries ax l).Perm l := List.perm_insertionSort (entLe ax) l
  have hsids : ((sortEntries ax l).map Entry.id).Nodup :=
    ((hperm.map Entry.id).nodup_iff).mpr hids
  refine ⟨?_, sweep_eventPair_nodup ax _ hsids, ?_⟩
  · intro e he
    obtain ⟨a, b, rfl, -, hsub⟩ := mem_sweep he
    have hnd : ([a, b].map Entry.id).Nodup := hsids.sublist (hsub.map Entry.id)
    have hab : a.id ≠ b.id := by simpa using hnd
    exact hab
  · intro e he
    obtain ⟨a, b, hmk, -, hsub⟩ := mem_sweep he
    exact ⟨a, b, hmk, hsub⟩

/-- Witness for claim C10: on a concrete two-entry working set with distinct
identifiers, the reported unordered pairs are pairwise distinct. -/
theorem events_distinct_unique_witness :
    ((tickEvents 0 [⟨0, ⟨⟨-1, -1⟩, ⟨1, 1⟩⟩, ⟨1, 2⟩⟩,
        ⟨1, ⟨⟨0, 0⟩, ⟨2, 2⟩⟩, ⟨2, 1⟩⟩]).map eventPair).Nodup :=
  (events_distinct_unique 0
    [⟨0, ⟨⟨-1, -1⟩, ⟨1, 1⟩⟩, ⟨1, 2⟩⟩, ⟨1, ⟨⟨0, 0⟩, ⟨2, 2⟩⟩, ⟨2, 1⟩⟩]
    (by decide)).2.1
